import Mathlib

/-!
Shallow embedding of the Mandelbrot compute engine in src/Main.cpp.

The C++ program computes an escape-time Mandelbrot image over a mutable
viewport of the complex plane into a fixed 960 x 600 pixel buffer, split
into horizontal tiles computed by worker threads.  `long double` values
are modelled by exact rationals (the spec declares numeric precision an
implementation choice); the loop guard `abs(z) < 2.0` is modelled by the
exactly equivalent `normSq z < 4`.
-/

namespace Mandelbrot

/-- WINDOW_WIDTH from src/Main.cpp line 62. -/
def WINDOW_WIDTH : Nat := 960

/-- WINDOW_HEIGHT from src/Main.cpp line 63. -/
def WINDOW_HEIGHT : Nat := 600

/-- MAX_THREADS from src/Main.cpp line 66. -/
def MAX_THREADS : Nat := 30

/-- MAX_ITERATIONS from src/Main.cpp line 69. -/
def MAX_ITERATIONS : Nat := 500

/-- The struct MclPixel (src/Main.cpp lines 34-44): an RGB colour triple. -/
structure MclPixel where
  r : ℚ
  g : ℚ
  b : ℚ
deriving DecidableEq

/-- The default-constructed MclPixel() = {0, 0, 0} used by clearPixels (line 177). -/
def clearPixel : MclPixel := ⟨0, 0, 0⟩

/-- A complex number, modelling std::complex of long double. -/
structure Cplx where
  re : ℚ
  im : ℚ
deriving DecidableEq

/-- Complex multiplication. -/
def Cplx.mul (a b : Cplx) : Cplx :=
  ⟨a.re * b.re - a.im * b.im, a.re * b.im + a.im * b.re⟩

/-- Complex addition. -/
def Cplx.add (a b : Cplx) : Cplx :=
  ⟨a.re + b.re, a.im + b.im⟩

/-- Squared modulus; abs(z) < 2.0 in the source is normSq z < 4 exactly. -/
def Cplx.normSq (a : Cplx) : ℚ :=
  a.re * a.re + a.im * a.im

/-- The four zoom values left, right, top, bottom (src/Main.cpp line 95). -/
structure Viewport where
  left : ℚ
  right : ℚ
  top : ℚ
  bottom : ℚ
deriving DecidableEq

/-- The complex coordinate of pixel (x, y) (src/Main.cpp line 132):
c = (left + x*(right-left)/WINDOW_WIDTH, top + y*(bottom-top)/WINDOW_HEIGHT). -/
def pixelC (vp : Viewport) (x y : Nat) : Cplx :=
  ⟨vp.left + (x * (vp.right - vp.left) / WINDOW_WIDTH),
   vp.top + (y * (vp.bottom - vp.top) / WINDOW_HEIGHT)⟩

/-- The while loop of src/Main.cpp lines 136-140:
while (abs(z) < 2.0 and iterations < MAX_ITERATIONS) do z = z*z + c; ++iterations.
fuel is MAX_ITERATIONS - iterations, so fuel = 0 is the cap check failing. -/
def mandelIterAux (c : Cplx) : Cplx → Nat → Nat → Nat
  | _, iterations, 0 => iterations
  | z, iterations, fuel + 1 =>
      if z.normSq < 4 then mandelIterAux c ((z.mul z).add c) (iterations + 1) fuel
      else iterations

/-- Iteration count of the escape-time loop started from z = 0, iterations = 0. -/
def mandelIterations (c : Cplx) : Nat :=
  mandelIterAux c ⟨0, 0⟩ 0 MAX_ITERATIONS

/-- The colouring step of src/Main.cpp lines 142-149: white when the count
reached the cap, otherwise (q, 0, q) with q = iterations / MAX_ITERATIONS. -/
def colourForIterations (iterations : Nat) : MclPixel :=
  if iterations < MAX_ITERATIONS then
    ⟨(iterations : ℚ) / MAX_ITERATIONS, 0, (iterations : ℚ) / MAX_ITERATIONS⟩
  else ⟨1, 1, 1⟩

/-- The colour computeMandelbrot writes for pixel (x, y) given the viewport
snapshot it was spawned with (src/Main.cpp lines 132-152). -/
def mandelPixel (vp : Viewport) (x y : Nat) : MclPixel :=
  colourForIterations (mandelIterations (pixelC vp x y))

/-- The orbit z_0 = 0, z_(n+1) = z_n * z_n + c, stated from the spec's words
for comparison with the source loop. -/
def zOrbit (c : Cplx) : Nat → Cplx
  | 0 => ⟨0, 0⟩
  | n + 1 => ((zOrbit c n).mul (zOrbit c n)).add c

/-- getTileId (src/Main.cpp lines 167-170): the tile id of pixel row y is
y / slice (integer division). -/
def getTileId (slice y : Nat) : Nat :=
  y / slice

/-- The row partition a pass uses (src/Main.cpp lines 419-424): tile i of T is
spawned with startY = i * slice and endY = startY + slice, where
slice = WINDOW_HEIGHT / T was set by setThreadCount (line 211).  Stated over a
general height to match the spec contract partition(height, workerCount). -/
def rowPartition (height T : Nat) : List (Nat × Nat × Nat) :=
  (List.range T).map (fun i => (i, i * (height / T), i * (height / T) + height / T))

/-- The shared engine state: the zoom values (line 95), threadCount (line 86),
slice (line 101), the recalculate flag (line 111) and windowClosed (line 114). -/
structure EngineState where
  vp : Viewport
  threadCount : Nat
  slice : Nat
  recalculate : Bool
  windowClosed : Bool
deriving DecidableEq

/-- setThreadCount (src/Main.cpp lines 193-220): rejects counts below 1 or
above MAX_THREADS leaving the state unchanged, otherwise stores the count,
recomputes slice = WINDOW_HEIGHT / threadCount, raises the recalculation
signal (signalRecalculation, line 186 sets recalculate = true) and reports
validity. -/
def setThreadCount (n : Int) (st : EngineState) : Bool × EngineState :=
  if n < 1 then (false, st)
  else if (MAX_THREADS : Int) < n then (false, st)
  else (true, { st with threadCount := n.toNat,
                        slice := WINDOW_HEIGHT / n.toNat,
                        recalculate := true })

/-- setZoom (src/Main.cpp lines 232-239): replaces the four zoom values and
calls signalRecalculation, which sets recalculate = true. -/
def setZoom (l r t b : ℚ) (st : EngineState) : EngineState :=
  { st with vp := ⟨l, r, t, b⟩, recalculate := true }

/-- resetZoom (src/Main.cpp lines 242-245): setZoom(-2.0, 1.0, 1.125, -1.125). -/
def resetZoom (st : EngineState) : EngineState :=
  setZoom (-2) 1 (9/8) (-(9/8)) st

/-- The canonical full-set bounds resetZoom installs. -/
def canonicalViewport : Viewport := ⟨-2, 1, 9/8, -(9/8)⟩

/-- One pixel write performed by a worker (src/Main.cpp lines 151-153). -/
structure Write where
  x : Nat
  y : Nat
  pix : MclPixel
deriving DecidableEq

/-- Inner x loop of computeMandelbrot (src/Main.cpp lines 128-154) with an
explicit schedule of the recalculate flag: flag k is the value the k-th poll
of the pass observes.  Before each pixel the flag is polled (line 130); a true
poll returns at once (third component true), otherwise the pixel colour is
computed and written.  Arguments: poll counter k, column x, remaining columns.
Returns the writes, the next poll counter, and whether it returned early. -/
def workerX (vp : Viewport) (flag : Nat → Bool) (y : Nat) :
    Nat → Nat → Nat → List Write × Nat × Bool
  | k, _, 0 => ([], k, false)
  | k, x, fuel + 1 =>
      if flag k then ([], k + 1, true)
      else
        let w : Write := ⟨x, y, mandelPixel vp x y⟩
        let r := workerX vp flag y (k + 1) (x + 1) fuel
        (w :: r.1, r.2)

/-- Outer y loop of computeMandelbrot (src/Main.cpp lines 124-155): before each
row the flag is polled (line 126); a true poll returns at once, otherwise the
row is computed by the inner loop, and an early return of the inner loop ends
the whole worker.  Arguments: poll counter k, row y, remaining rows. -/
def workerY (vp : Viewport) (flag : Nat → Bool) :
    Nat → Nat → Nat → List Write × Nat × Bool
  | k, _, 0 => ([], k, false)
  | k, y, fuel + 1 =>
      if flag k then ([], k + 1, true)
      else
        let r := workerX vp flag y (k + 1) 0 WINDOW_WIDTH
        if r.2.2 then r
        else
          let r2 := workerY vp flag r.2.1 (y + 1) fuel
          (r.1 ++ r2.1, r2.2)

/-- The arguments a worker thread is spawned with, captured by value
(src/Main.cpp line 423): tile id, the viewport snapshot, and its row range. -/
structure WorkerArgs where
  tileId : Nat
  vp : Viewport
  startY : Nat
  endY : Nat
deriving DecidableEq

/-- The spawn loop of main (src/Main.cpp lines 419-424): one worker per
tile id i below the current thread count, rows [i*slice, i*slice+slice). -/
def spawnWorkers (st : EngineState) : List WorkerArgs :=
  (List.range st.threadCount).map
    (fun i => ⟨i, st.vp, i * st.slice, i * st.slice + st.slice⟩)

/-- The writes a worker performs when no cancellation arrives: computeMandelbrot
run on its spawn arguments with the flag never observed true. -/
def workerWrites (a : WorkerArgs) : List Write :=
  (workerY a.vp (fun _ => false) 0 a.startY (a.endY - a.startY)).1

/-- Whether some tile of a T-worker pass owns row y: tile i owns rows
[i*slice, i*slice+slice) with slice = WINDOW_HEIGHT / T (src/Main.cpp
lines 419-424). -/
def rowHasTile (T y : Nat) : Bool :=
  (List.range T).any
    (fun i => decide (i * (WINDOW_HEIGHT / T) ≤ y) &&
              decide (y < i * (WINDOW_HEIGHT / T) + WINDOW_HEIGHT / T))

/-- The final colour of pixel (x, y) after a completed (uncancelled) pass with
T workers: the buffer is cleared (clearPixels, src/Main.cpp line 412), then the
worker owning row y overwrites the pixel with the kernel colour; a row owned by
no tile keeps the cleared colour. -/
def passPixelColor (vp : Viewport) (T : Nat) (x y : Nat) : MclPixel :=
  if rowHasTile T y then mandelPixel vp x y else clearPixel

/-- An action a collaborator thread may take concurrently with the compute
loop: the zoom setters, the thread-count controller, and the render thread's
shutdown path (src/Main.cpp lines 375-376) which sets windowClosed and
recalculate. -/
inductive EnvAction where
  | envSetZoom (l r t b : ℚ)
  | envResetZoom
  | envSetThreadCount (n : Int)
  | envCloseWindow
deriving DecidableEq

/-- Effect of one concurrent action on the engine state. -/
def applyEnvAction (st : EngineState) : EnvAction → EngineState
  | .envSetZoom l r t b => setZoom l r t b st
  | .envResetZoom => resetZoom st
  | .envSetThreadCount n => (setThreadCount n st).2
  | .envCloseWindow => { st with windowClosed := true, recalculate := true }

/-- Effect of a sequence of concurrent actions. -/
def applyEnv (st : EngineState) (acts : List EnvAction) : EngineState :=
  acts.foldl applyEnvAction st

/-- Observable events of the orchestrator loop in main
(src/Main.cpp lines 410-441). -/
inductive OrchEvent where
  | passStart (vp : Viewport) (t : Nat)
  | reportTime
  | waitSignal
  | exitLoop
deriving DecidableEq

/-- The orchestrator loop of main (src/Main.cpp lines 410-441), driven by a
schedule: each iteration's entry lists the concurrent actions taken while the
pass runs and, if the loop pauses, the actions taken before the wakeup.
An iteration: check windowClosed (line 410); clear the buffer and the flag
(lines 412-413); spawn a pass from the current parameters (lines 419-424);
join (lines 427-431); if recalculate stayed false, report the elapsed time and
wait on the condition (lines 436-440); loop.  An empty schedule ends the
trace. -/
def mainLoop : EngineState → List (List EnvAction × List EnvAction) → List OrchEvent
  | _, [] => []
  | st, (duringPass, duringWait) :: rest =>
      if st.windowClosed then [.exitLoop]
      else
        let stClear : EngineState := { st with recalculate := false }
        let stJoin := applyEnv stClear duringPass
        .passStart stClear.vp stClear.threadCount ::
          (if stJoin.recalculate then mainLoop stJoin rest
           else .reportTime :: .waitSignal :: mainLoop (applyEnv stJoin duringWait) rest)

/-! ### Supporting lemmas -/

/-- Membership in the row partition: tile (i, a, b) occurs exactly when i < T,
a = i * (height / T) and b = a + height / T. -/
theorem mem_rowPartition (H T i a b : Nat) :
    (i, a, b) ∈ rowPartition H T ↔
      i < T ∧ a = i * (H / T) ∧ b = i * (H / T) + H / T := by
  simp only [rowPartition, List.mem_map, List.mem_range, Prod.mk.injEq]
  constructor
  · rintro ⟨j, hj, rfl, rfl, rfl⟩
    exact ⟨hj, rfl, rfl⟩
  · rintro ⟨hi, rfl, rfl⟩
    exact ⟨i, hi, rfl, rfl, rfl⟩

/-- The rows owned by some tile of a T-worker pass are exactly the rows below
T * (WINDOW_HEIGHT / T). -/
theorem rowHasTile_iff (T y : Nat) :
    rowHasTile T y = true ↔ y < T * (WINDOW_HEIGHT / T) := by
  unfold rowHasTile
  simp only [List.any_eq_true, List.mem_range, Bool.and_eq_true, decide_eq_true_eq]
  constructor
  · rintro ⟨i, hi, h1, h2⟩
    calc y < i * (WINDOW_HEIGHT / T) + WINDOW_HEIGHT / T := h2
    _ = (i + 1) * (WINDOW_HEIGHT / T) := by ring
    _ ≤ T * (WINDOW_HEIGHT / T) := Nat.mul_le_mul_right _ (Nat.succ_le_of_lt hi)
  · intro hy
    have hs : 0 < WINDOW_HEIGHT / T := by
      rcases Nat.eq_zero_or_pos (WINDOW_HEIGHT / T) with h | h
      · rw [h] at hy; omega
      · exact h
    refine ⟨y / (WINDOW_HEIGHT / T), ?_, Nat.div_mul_le_self y _, ?_⟩
    · exact (Nat.div_lt_iff_lt_mul hs).mpr hy
    · have hmod := Nat.div_add_mod y (WINDOW_HEIGHT / T)
      have hlt := Nat.mod_lt y hs
      rw [Nat.mul_comm]
      omega

/-- The escape-time loop, related to the orbit z_0 = 0, z_(n+1) = z_n^2 + c:
started at step k with z = zOrbit c k, the returned count N satisfies
k ≤ N ≤ k + fuel, the orbit stays below the escape bound strictly before N,
and if the loop stopped before exhausting the fuel then the orbit escaped
at N. -/
theorem mandelIterAux_zOrbit (c : Cplx) :
    ∀ fuel k,
      k ≤ mandelIterAux c (zOrbit c k) k fuel ∧
      mandelIterAux c (zOrbit c k) k fuel ≤ k + fuel ∧
      (∀ m, k ≤ m → m < mandelIterAux c (zOrbit c k) k fuel →
        (zOrbit c m).normSq < 4) ∧
      (mandelIterAux c (zOrbit c k) k fuel < k + fuel →
        4 ≤ (zOrbit c (mandelIterAux c (zOrbit c k) k fuel)).normSq) := by
  intro fuel
  induction fuel with
  | zero =>
      intro k
      refine ⟨Nat.le_refl _, Nat.le_refl _, ?_, ?_⟩
      · intro m hk hm; simp [mandelIterAux] at hm; omega
      · intro h; simp [mandelIterAux] at h
  | succ fuel ih =>
      intro k
      by_cases h : (zOrbit c k).normSq < 4
      · have heq : mandelIterAux c (zOrbit c k) k (fuel + 1) =
            mandelIterAux c (zOrbit c (k + 1)) (k + 1) fuel := by
          simp only [mandelIterAux, h, if_true]
          rfl
        obtain ⟨ih1, ih2, ih3, ih4⟩ := ih (k + 1)
        rw [heq]
        refine ⟨by omega, by omega, ?_, ?_⟩
        · intro m hk hm
          rcases Nat.eq_or_lt_of_le hk with rfl | hk1
          · exact h
          · exact ih3 m hk1 hm
        · intro hlt
          exact ih4 (by omega)
      · have heq : mandelIterAux c (zOrbit c k) k (fuel + 1) = k := by
          simp only [mandelIterAux, h, if_false]
        rw [heq]
        refine ⟨Nat.le_refl _, by omega, ?_, fun _ => le_of_not_lt h⟩
        intro m hk hm; omega

/-- Characterization of the full run: mandelIterations c is at most the cap,
the orbit stays bounded strictly before it, and a count below the cap means
the orbit escaped there. -/
theorem mandelIterations_spec (c : Cplx) :
    mandelIterations c ≤ MAX_ITERATIONS ∧
    (∀ m, m < mandelIterations c → (zOrbit c m).normSq < 4) ∧
    (mandelIterations c < MAX_ITERATIONS →
      4 ≤ (zOrbit c (mandelIterations c)).normSq) := by
  have h := mandelIterAux_zOrbit c MAX_ITERATIONS 0
  have hz : zOrbit c 0 = ⟨0, 0⟩ := rfl
  rw [hz] at h
  obtain ⟨_, h2, h3, h4⟩ := h
  exact ⟨by simpa using h2, fun m hm => h3 m (Nat.zero_le m) hm, by simpa using h4⟩

/-! ### C1: the row partition -/

/-- C1, counterexample: the partition for H = 600, T = 7 does not assign the
remainder rows to the last tile: the last tile is (6, 510, 595), so its end
row is 595, not 600, and row 599 lies in no tile. -/
theorem c1_counterexample :
    (rowPartition 600 7).getLast? = some (6, 510, 595) ∧
    ¬ (∃ p ∈ rowPartition 600 7, p.2.1 ≤ 599 ∧ 599 < p.2.2) := by
  decide

/-- C1, amended: for every height H ≥ 1 and worker count T in [1, MAX_THREADS],
the partition is an ordered sequence of T non-overlapping tiles, tile i owning
rows [i*slice, i*slice+slice) with slice = H / T; together the tiles cover
[0, T*slice) exactly, so when T does not divide H the remainder rows belong to
no tile.  For H = 600, T = 4 the ranges are [0,150), [150,300), [300,450),
[450,600); for H = 600, T = 7, slice = 85 and the last tile ends at row 595. -/
theorem c1_partition (H T : Nat) (hH : 1 ≤ H) (hT1 : 1 ≤ T) (hT : T ≤ MAX_THREADS) :
    ((rowPartition H T).length = T ∧
     (rowPartition H T).map (fun p => p.1) = List.range T ∧
     (∀ i a b, (i, a, b) ∈ rowPartition H T ↔
        i < T ∧ a = i * (H / T) ∧ b = i * (H / T) + H / T) ∧
     (∀ i a b j a' b', (i, a, b) ∈ rowPartition H T →
        (j, a', b') ∈ rowPartition H T → i < j → b ≤ a') ∧
     (∀ y, (∃ p ∈ rowPartition H T, p.2.1 ≤ y ∧ y < p.2.2) ↔ y < T * (H / T))) ∧
    rowPartition 600 4 = [(0, 0, 150), (1, 150, 300), (2, 300, 450), (3, 450, 600)] ∧
    600 / 7 = 85 ∧ (rowPartition 600 7).getLast? = some (6, 510, 595) := by
  refine ⟨⟨?_, ?_, fun i a b => mem_rowPartition H T i a b, ?_, ?_⟩, by decide, by decide, by decide⟩
  · simp [rowPartition]
  · rw [rowPartition, List.map_map]
    exact List.map_id _
  · intro i a b j a' b' hm1 hm2 hij
    obtain ⟨_, _, rfl⟩ := (mem_rowPartition H T i a b).mp hm1
    obtain ⟨_, rfl, _⟩ := (mem_rowPartition H T j a' b').mp hm2
    calc i * (H / T) + H / T = (i + 1) * (H / T) := by ring
    _ ≤ j * (H / T) := Nat.mul_le_mul_right _ hij
  · intro y
    constructor
    · rintro ⟨⟨i, a, b⟩, hm, h1, h2⟩
      obtain ⟨hi, rfl, rfl⟩ := (mem_rowPartition H T i a b).mp hm
      calc y < i * (H / T) + H / T := h2
      _ = (i + 1) * (H / T) := by ring
      _ ≤ T * (H / T) := Nat.mul_le_mul_right _ (Nat.succ_le_of_lt hi)
    · intro hy
      have hs : 0 < H / T := by
        rcases Nat.eq_zero_or_pos (H / T) with h | h
        · rw [h] at hy; omega
        · exact h
      refine ⟨(y / (H / T), y / (H / T) * (H / T), y / (H / T) * (H / T) + H / T),
        (mem_rowPartition H T _ _ _).mpr ⟨(Nat.div_lt_iff_lt_mul hs).mpr hy, rfl, rfl⟩,
        Nat.div_mul_le_self y _, ?_⟩
      show y < y / (H / T) * (H / T) + H / T
      have hmod := Nat.div_add_mod y (H / T)
      have hlt := Nat.mod_lt y hs
      rw [Nat.mul_comm] at hmod
      omega

/-- C1, witness: the amended theorem applied at H = 600, T = 4. -/
theorem c1_witness :
    1 ≤ 600 ∧ 1 ≤ 4 ∧ 4 ≤ MAX_THREADS ∧
    rowPartition 600 4 = [(0, 0, 150), (1, 150, 300), (2, 300, 450), (3, 450, 600)] :=
  ⟨by decide, by decide, by decide,
   (c1_partition 600 4 (by decide) (by decide) (by decide)).2.1⟩

/-! ### C2: the escape-time kernel -/

/-- C2: for every pixel and viewport, the kernel computes c by the claimed
affine mapping, the iteration count N is the escape time of the orbit
z_0 = 0, z_(n+1) = z_n^2 + c capped at 500 (the orbit stays below the escape
bound strictly before N, and escapes at N when N is below the cap), and the
pixel colour is (N/500, 0, N/500) when N is below the cap and white (1, 1, 1)
otherwise. -/
theorem c2_kernel (vp : Viewport) (x y : Nat) :
    pixelC vp x y =
      ⟨vp.left + (x * (vp.right - vp.left) / 960),
       vp.top + (y * (vp.bottom - vp.top) / 600)⟩ ∧
    mandelIterations (pixelC vp x y) ≤ 500 ∧
    (∀ m, m < mandelIterations (pixelC vp x y) →
      (zOrbit (pixelC vp x y) m).normSq < 4) ∧
    (mandelIterations (pixelC vp x y) < 500 →
      4 ≤ (zOrbit (pixelC vp x y) (mandelIterations (pixelC vp x y))).normSq) ∧
    mandelPixel vp x y =
      (if mandelIterations (pixelC vp x y) < 500 then
        ⟨(mandelIterations (pixelC vp x y) : ℚ) / 500, 0,
         (mandelIterations (pixelC vp x y) : ℚ) / 500⟩
      else ⟨1, 1, 1⟩) := by
  obtain ⟨h1, h2, h3⟩ := mandelIterations_spec (pixelC vp x y)
  refine ⟨?_, h1, h2, h3, ?_⟩
  · show Cplx.mk (vp.left + (x * (vp.right - vp.left) / (WINDOW_WIDTH : Nat)))
        (vp.top + (y * (vp.bottom - vp.top) / (WINDOW_HEIGHT : Nat))) = _
    norm_num [WINDOW_WIDTH, WINDOW_HEIGHT]
  · show colourForIterations (mandelIterations (pixelC vp x y)) = _
    unfold colourForIterations MAX_ITERATIONS
    rfl

/-! ### C3: worker count does not affect completed pass colours -/

/-- C3, counterexample: the claim fails for T1 = 4, T2 = 7 at pixel (0, 599) of
the canonical viewport: a completed 4-worker pass colours it by the kernel,
while a completed 7-worker pass leaves rows 595-599 cleared, because with
slice = 85 the tiles cover only [0, 595). -/
theorem c3_counterexample :
    passPixelColor canonicalViewport 4 0 599 ≠ passPixelColor canonicalViewport 7 0 599 := by
  with_unfolding_all decide

/-- C3, amended: for any two valid worker counts T1 and T2 and a fixed
viewport, completed passes agree at every pixel whose row is covered by both
partitions (any row below both T1*(H/T1) and T2*(H/T2)); in particular, when
T1 and T2 both divide the height the two passes produce identical colours at
every pixel.  They can differ only at remainder rows, which the partition of
one of the counts leaves cleared. -/
theorem c3_pass_agreement (vp : Viewport) (T1 T2 x y : Nat)
    (h11 : 1 ≤ T1) (h12 : T1 ≤ MAX_THREADS)
    (h21 : 1 ≤ T2) (h22 : T2 ≤ MAX_THREADS) :
    (y < T1 * (WINDOW_HEIGHT / T1) → y < T2 * (WINDOW_HEIGHT / T2) →
      passPixelColor vp T1 x y = passPixelColor vp T2 x y) ∧
    (T1 ∣ WINDOW_HEIGHT → T2 ∣ WINDOW_HEIGHT →
      passPixelColor vp T1 x y = passPixelColor vp T2 x y) := by
  constructor
  · intro hy1 hy2
    unfold passPixelColor
    rw [(rowHasTile_iff T1 y).mpr hy1, (rowHasTile_iff T2 y).mpr hy2]
  · intro hd1 hd2
    unfold passPixelColor
    have e1 : T1 * (WINDOW_HEIGHT / T1) = WINDOW_HEIGHT := Nat.mul_div_cancel' hd1
    have e2 : T2 * (WINDOW_HEIGHT / T2) = WINDOW_HEIGHT := Nat.mul_div_cancel' hd2
    by_cases hy : y < WINDOW_HEIGHT
    · rw [(rowHasTile_iff T1 y).mpr (by omega), (rowHasTile_iff T2 y).mpr (by omega)]
    · have n1 : rowHasTile T1 y = false := by
        rw [Bool.eq_false_iff, Ne, rowHasTile_iff]; omega
      have n2 : rowHasTile T2 y = false := by
        rw [Bool.eq_false_iff, Ne, rowHasTile_iff]; omega
      rw [n1, n2]

/-- C3, witness: the amended theorem applied with T1 = 2, T2 = 3 (both divide
600) at pixel (0, 0) of the canonical viewport. -/
theorem c3_witness :
    (1:Nat) ≤ 2 ∧ (2:Nat) ≤ MAX_THREADS ∧ (1:Nat) ≤ 3 ∧ (3:Nat) ≤ MAX_THREADS ∧
    passPixelColor canonicalViewport 2 0 0 = passPixelColor canonicalViewport 3 0 0 :=
  ⟨by decide, by decide, by decide, by decide,
   (c3_pass_agreement canonicalViewport 2 3 0 0 (by decide) (by decide) (by decide)
      (by decide)).2 (by decide) (by decide)⟩

/-! ### C4: the thread-count controller -/

/-- C4: setThreadCount rejects every count below 1 or above MAX_THREADS,
returning invalid with the state (worker count, slice, flags) unchanged, and
accepts every count in [1, MAX_THREADS] (the boundary values included),
storing the count, recomputing slice = WINDOW_HEIGHT / count, raising the
recalculation signal and returning valid. -/
theorem c4_setThreadCount (n : Int) (st : EngineState) :
    (n < 1 → setThreadCount n st = (false, st)) ∧
    ((MAX_THREADS : Int) < n → setThreadCount n st = (false, st)) ∧
    (1 ≤ n → n ≤ (MAX_THREADS : Int) →
      setThreadCount n st =
        (true, { st with threadCount := n.toNat,
                         slice := WINDOW_HEIGHT / n.toNat,
                         recalculate := true })) := by
  refine ⟨?_, ?_, ?_⟩
  · intro h
    unfold setThreadCount
    rw [if_pos h]
  · intro h
    unfold setThreadCount
    rw [if_neg (by omega), if_pos h]
  · intro h1 h2
    unfold setThreadCount
    rw [if_neg (by omega), if_neg (by omega)]

/-! ### C5: cancellation latency of a worker -/

/-- Each pixel write of the inner loop consumes one poll: the poll counter
advances by at least the number of writes. -/
theorem workerX_counter (vp : Viewport) (flag : Nat → Bool) (y : Nat) :
    ∀ fuel k x, k + (workerX vp flag y k x fuel).1.length ≤
      (workerX vp flag y k x fuel).2.1 := by
  intro fuel
  induction fuel with
  | zero => intro k x; simp [workerX]
  | succ fuel ih =>
      intro k x
      by_cases h : flag k
      · simp [workerX, h]
      · have := ih (k + 1) (x + 1)
        simp only [workerX, h, Bool.false_eq_true, if_false, List.length_cons]
        omega

/-- Once the flag is true (and stays true), the inner loop performs at most
n - k writes when started at poll counter k. -/
theorem workerX_bound (vp : Viewport) (flag : Nat → Bool) (y n : Nat)
    (hmono : ∀ i j, i ≤ j → flag i = true → flag j = true)
    (hn : flag n = true) :
    ∀ fuel k x, (workerX vp flag y k x fuel).1.length ≤ n - k := by
  intro fuel
  induction fuel with
  | zero => intro k x; simp [workerX]
  | succ fuel ih =>
      intro k x
      by_cases h : flag k
      · simp [workerX, h]
      · have hk : k < n := by
          by_contra hk
          exact h (hmono n k (by omega) hn)
        have := ih (k + 1) (x + 1)
        simp only [workerX, h, Bool.false_eq_true, if_false, List.length_cons]
        omega

/-- C5: the recalculate flag is polled before every row and before every pixel;
once it becomes true (monotone flag schedule, true from poll n on), a worker
started at poll counter k writes at most n - k further pixels, and a worker
whose very first poll sees the flag true returns immediately with no writes.
Cancellation latency is therefore bounded by single pixel evaluations, not by
rows or a full pass. -/
theorem c5_cancellation (vp : Viewport) (flag : Nat → Bool) (n : Nat)
    (hmono : ∀ i j, i ≤ j → flag i = true → flag j = true)
    (hn : flag n = true) :
    ∀ fuel k y, (workerY vp flag k y fuel).1.length ≤ n - k ∧
      (n ≤ k → 0 < fuel → workerY vp flag k y fuel = ([], k + 1, true)) := by
  intro fuel
  induction fuel with
  | zero => intro k y; simp [workerY]
  | succ fuel ih =>
      intro k y
      constructor
      · by_cases h : flag k
        · simp [workerY, h]
        · have hk : k < n := by
            by_contra hk
            exact h (hmono n k (by omega) hn)
          have hx := workerX_bound vp flag y n hmono hn WINDOW_WIDTH (k + 1) 0
          have hxc := workerX_counter vp flag y WINDOW_WIDTH (k + 1) 0
          have hy := (ih (workerX vp flag y (k + 1) 0 WINDOW_WIDTH).2.1 (y + 1)).1
          simp only [workerY, h, Bool.false_eq_true, if_false]
          by_cases hc : (workerX vp flag y (k + 1) 0 WINDOW_WIDTH).2.2
          · simp only [hc, if_true]
            omega
          · simp only [hc, Bool.false_eq_true, if_false, List.length_append]
            omega
      · intro hnk hf
        have h : flag k = true := hmono n k hnk hn
        simp [workerY, h]

/-- C5, witness: a flag that becomes true at poll 2; the worker spawned on the
full canonical-viewport image writes at most 2 pixels. -/
theorem c5_witness :
    (workerY canonicalViewport (fun i => decide (2 ≤ i)) 0 0 600).1.length ≤ 2 - 0 :=
  (c5_cancellation canonicalViewport (fun i => decide (2 ≤ i)) 2
    (by
      intro i j hij hi
      simp only [decide_eq_true_eq] at hi ⊢
      omega)
    (by decide) 600 0 0).1

/-! ### C6: the orchestrator loop -/

/-- C6: in an iteration of the orchestrator loop, after the pass's workers are
joined: if the recalculate flag is still false the loop reports the elapsed
time and blocks on the condition; if the flag became true a new pass starts
immediately, with no report and no wait, and its parameters are the
now-current ones (the first event of every non-closed iteration is a
passStart carrying the current viewport and worker count); once windowClosed
is observed true the loop exits instead of starting another pass. -/
theorem c6_orchestrator (st : EngineState) (dp dw : List EnvAction)
    (rest : List (List EnvAction × List EnvAction)) :
    (st.windowClosed = true →
      mainLoop st ((dp, dw) :: rest) = [OrchEvent.exitLoop]) ∧
    (st.windowClosed = false →
      (mainLoop st ((dp, dw) :: rest)).head? =
        some (OrchEvent.passStart st.vp st.threadCount)) ∧
    (st.windowClosed = false →
      (applyEnv { st with recalculate := false } dp).recalculate = false →
      mainLoop st ((dp, dw) :: rest) =
        OrchEvent.passStart st.vp st.threadCount :: OrchEvent.reportTime ::
          OrchEvent.waitSignal ::
          mainLoop (applyEnv (applyEnv { st with recalculate := false } dp) dw) rest) ∧
    (st.windowClosed = false →
      (applyEnv { st with recalculate := false } dp).recalculate = true →
      mainLoop st ((dp, dw) :: rest) =
        OrchEvent.passStart st.vp st.threadCount ::
          mainLoop (applyEnv { st with recalculate := false } dp) rest) := by
  refine ⟨?_, ?_, ?_, ?_⟩
  · intro h
    simp [mainLoop, h]
  · intro h
    simp [mainLoop, h]
  · intro h hr
    simp only [h] at hr
    simp [mainLoop, h, hr]
  · intro h hr
    simp only [h] at hr
    simp [mainLoop, h, hr]

/-- C6, witness: a state with the window open and a schedule in which nothing
changes during the pass: the iteration reports and waits; the window is closed
during the wait, and the next iteration exits. -/
theorem c6_witness :
    mainLoop ⟨canonicalViewport, 4, 150, true, false⟩
        [([], [EnvAction.envCloseWindow]), ([], [])] =
      OrchEvent.passStart canonicalViewport 4 :: OrchEvent.reportTime ::
        OrchEvent.waitSignal ::
        mainLoop
          (applyEnv
            (applyEnv { EngineState.mk canonicalViewport 4 150 true false with
                          recalculate := false } [])
            [EnvAction.envCloseWindow])
          [([], [])] :=
  (c6_orchestrator ⟨canonicalViewport, 4, 150, true, false⟩ []
      [EnvAction.envCloseWindow] [([], [])]).2.2.1 rfl rfl

/-! ### C7: the cap boundary -/

/-- C7: every pixel is coloured from its iteration count; a count that reached
the cap (500) is classified stable and coloured white (1, 1, 1), while a count
of 499 is classified escaped and coloured by the fractional formula
(q, 0, q) with q = 499/500. -/
theorem c7_cap_boundary :
    (∀ (vp : Viewport) (x y : Nat),
      mandelPixel vp x y = colourForIterations (mandelIterations (pixelC vp x y))) ∧
    colourForIterations 500 = ⟨1, 1, 1⟩ ∧
    colourForIterations 499 = ⟨499 / 500, 0, 499 / 500⟩ := by
  refine ⟨fun vp x y => rfl, ?_, ?_⟩
  · unfold colourForIterations MAX_ITERATIONS
    norm_num
  · unfold colourForIterations MAX_ITERATIONS
    norm_num

/-! ### C8: resetZoom -/

/-- C8: resetZoom installs exactly the canonical full-set bounds
left = -2, right = 1, top = 1.125, bottom = -1.125, raises the recalculation
signal, and changes nothing else; a completed pass after it therefore
produces the very colours of a direct computation with those bounds. -/
theorem c8_resetZoom (st : EngineState) (T x y : Nat) :
    (resetZoom st).vp = canonicalViewport ∧
    canonicalViewport.left = -2 ∧ canonicalViewport.right = 1 ∧
    canonicalViewport.top = 1.125 ∧ canonicalViewport.bottom = -1.125 ∧
    (resetZoom st).recalculate = true ∧
    (resetZoom st).threadCount = st.threadCount ∧
    (resetZoom st).slice = st.slice ∧
    (resetZoom st).windowClosed = st.windowClosed ∧
    passPixelColor (resetZoom st).vp T x y =
      passPixelColor ⟨-2, 1, 9/8, -(9/8)⟩ T x y := by
  refine ⟨rfl, rfl, rfl, by norm_num [canonicalViewport], by norm_num [canonicalViewport],
    rfl, rfl, rfl, rfl, rfl⟩

/-! ### C9: the viewport is a per-pass snapshot -/

/-- A pass during which a setZoom arrives while the workers are already
running: the workers were spawned with the viewport captured by value, so
their writes are computed from the spawn-time snapshot, while the state the
next pass will read carries the new bounds. -/
def passWithMidZoom (st : EngineState) (l r t b : ℚ) :
    List (List Write) × EngineState :=
  ((spawnWorkers st).map workerWrites, setZoom l r t b st)

/-- An uncancelled inner loop writes the kernel colour of every remaining
column of its row, in order. -/
theorem workerX_noCancel (vp : Viewport) (y : Nat) :
    ∀ fuel k x, (workerX vp (fun _ => false) y k x fuel).1 =
      (List.range fuel).map (fun j => ⟨x + j, y, mandelPixel vp (x + j) y⟩) := by
  intro fuel
  induction fuel with
  | zero => intro k x; simp [workerX]
  | succ fuel ih =>
      intro k x
      rw [List.range_succ_eq_map]
      simp only [workerX, Bool.false_eq_true, if_false, List.map_cons, List.map_map]
      rw [ih (k + 1) (x + 1)]
      congr 1
      simp only [List.map_inj_left, Function.comp_apply, List.mem_range]
      intro j hj
      have h : x + 1 + j = x + (j + 1) := by omega
      simp [h]

set_option maxRecDepth 10000 in
/-- An uncancelled worker writes the kernel colour of every pixel of its
rows. -/
theorem workerY_noCancel (vp : Viewport) :
    ∀ fuel k y, (workerY vp (fun _ => false) k y fuel).1 =
      (List.range fuel).flatMap (fun j =>
        (List.range WINDOW_WIDTH).map (fun x => ⟨x, y + j, mandelPixel vp x (y + j)⟩)) := by
  intro fuel
  induction fuel with
  | zero => intro k y; simp [workerY]
  | succ fuel ih =>
      intro k y
      rw [List.range_succ_eq_map]
      simp only [workerY, Bool.false_eq_true, if_false, List.flatMap_cons, List.flatMap_map]
      have hx := workerX_noCancel vp y WINDOW_WIDTH (k + 1) 0
      have hc : (workerX vp (fun _ => false) y (k + 1) 0 WINDOW_WIDTH).2.2 = false := by
        clear hx ih
        generalize (k + 1) = k0
        generalize 0 = x0
        generalize WINDOW_WIDTH = fuel
        induction fuel generalizing k0 x0 with
        | zero => simp [workerX]
        | succ fuel ih2 => simpa [workerX] using ih2 (k0 + 1) (x0 + 1)
      rw [hc]
      simp only [Bool.false_eq_true, if_false]
      rw [hx, ih _ (y + 1)]
      congr 1
      refine congrArg _ (funext fun j => ?_)
      rw [show y + 1 + j = y + j.succ from by omega]

/-- The writes of an uncancelled worker are exactly the kernel colours of its
snapshot viewport over its row range and the full width. -/
theorem workerWrites_mem (a : WorkerArgs) (w : Write) :
    w ∈ workerWrites a ↔
      a.startY ≤ w.y ∧ w.y < a.startY + (a.endY - a.startY) ∧
      w.x < WINDOW_WIDTH ∧ w.pix = mandelPixel a.vp w.x w.y := by
  unfold workerWrites
  rw [workerY_noCancel a.vp (a.endY - a.startY) 0 a.startY]
  simp only [List.mem_flatMap, List.mem_range, List.mem_map]
  constructor
  · rintro ⟨j, hj, x, hx, rfl⟩
    dsimp only
    exact ⟨by omega, by omega, hx, rfl⟩
  · rintro ⟨h1, h2, h3, h4⟩
    refine ⟨w.y - a.startY, by omega, w.x, h3, ?_⟩
    have hy : a.startY + (w.y - a.startY) = w.y := by omega
    rw [hy, ← h4]

/-- C9: the workers of a pass read the viewport as an immutable snapshot taken
when they are spawned: a setZoom arriving mid-pass does not change the
in-flight workers' writes (the writes are identical for any two choices of the
mid-pass bounds, every write being the kernel colour under the spawn-time
viewport), while the state left for the next pass carries the new bounds. -/
theorem c9_snapshot (st : EngineState) (l r t b l2 r2 t2 b2 : ℚ) :
    (passWithMidZoom st l r t b).1 = (spawnWorkers st).map workerWrites ∧
    (passWithMidZoom st l r t b).1 = (passWithMidZoom st l2 r2 t2 b2).1 ∧
    (∀ a ∈ spawnWorkers st, a.vp = st.vp) ∧
    (∀ a ∈ spawnWorkers st, ∀ w ∈ workerWrites a,
      w.pix = mandelPixel st.vp w.x w.y) ∧
    (passWithMidZoom st l r t b).2.vp = ⟨l, r, t, b⟩ := by
  have hvp : ∀ a ∈ spawnWorkers st, a.vp = st.vp := by
    intro a ha
    simp only [spawnWorkers, List.mem_map, List.mem_range] at ha
    obtain ⟨i, _, rfl⟩ := ha
    rfl
  refine ⟨rfl, rfl, hvp, ?_, rfl⟩
  intro a ha w hw
  rw [← hvp a ha]
  exact ((workerWrites_mem a w).mp hw).2.2.2

/-- Linking the pointwise completed-pass colour to the workers' writes: when
slice = WINDOW_HEIGHT / threadCount (the invariant setThreadCount maintains),
a pixel of a covered row is written by some worker of the pass with exactly
the completed-pass colour, and a pixel of an uncovered (remainder) row is
written by no worker and keeps the cleared colour. -/
theorem passPixelColor_writes (st : EngineState) (x y : Nat)
    (hx : x < WINDOW_WIDTH)
    (hslice : st.slice = WINDOW_HEIGHT / st.threadCount) :
    (rowHasTile st.threadCount y = true →
      ∃ a ∈ spawnWorkers st, ∃ w ∈ workerWrites a,
        w.x = x ∧ w.y = y ∧ w.pix = passPixelColor st.vp st.threadCount x y) ∧
    (rowHasTile st.threadCount y = false →
      (∀ a ∈ spawnWorkers st, ∀ w ∈ workerWrites a, ¬(w.x = x ∧ w.y = y)) ∧
      passPixelColor st.vp st.threadCount x y = clearPixel) := by
  constructor
  · intro hcov
    have h := hcov
    simp only [rowHasTile, List.any_eq_true, List.mem_range, Bool.and_eq_true,
      decide_eq_true_eq] at h
    obtain ⟨i, hi, h1, h2⟩ := h
    refine ⟨⟨i, st.vp, i * st.slice, i * st.slice + st.slice⟩, ?_,
      ⟨x, y, mandelPixel st.vp x y⟩, ?_, rfl, rfl, ?_⟩
    · simp only [spawnWorkers, List.mem_map, List.mem_range]
      exact ⟨i, hi, rfl⟩
    · rw [workerWrites_mem]
      dsimp only
      rw [hslice]
      refine ⟨h1, ?_, hx, rfl⟩
      omega
    · unfold passPixelColor
      rw [hcov]
      simp
  · intro hunc
    constructor
    · rintro a ha w hw ⟨rfl, rfl⟩
      simp only [spawnWorkers, List.mem_map, List.mem_range] at ha
      obtain ⟨i, hi, rfl⟩ := ha
      rw [workerWrites_mem] at hw
      dsimp only at hw
      rw [hslice] at hw
      have : rowHasTile st.threadCount w.y = true := by
        simp only [rowHasTile, List.any_eq_true, List.mem_range, Bool.and_eq_true,
          decide_eq_true_eq]
        exact ⟨i, hi, hw.1, by omega⟩
      rw [this] at hunc
      cases hunc
    · unfold passPixelColor
      rw [hunc]
      simp

/-! ### C10: tile ids of the renderer stay in bounds -/

/-- For each valid worker count, every visible row's tile id is a valid index
into the MAX_THREADS-sized mutex array, and the remainder rows map exactly to
tile id T. -/
theorem tileId_core :
    ∀ T : Nat, 1 ≤ T → T ≤ 30 → ∀ y : Nat, y < 600 →
      y / (600 / T) < 30 ∧ (T * (600 / T) ≤ y → y / (600 / T) = T) := by
  intro T h1 h2 y hy
  interval_cases T <;> omega

/-- C10: for every row y of the window and worker count T in [1, MAX_THREADS],
getTileId with slice = WINDOW_HEIGHT / T is below MAX_THREADS, so the
renderer's per-row lock acquisition never indexes out of bounds; when T does
not divide the height, each remainder row y ≥ T * slice has tile id exactly T,
while every worker of the pass holds a tile id below T — so the lock the
renderer takes for a remainder row is one no worker of that pass acquires. -/
theorem c10_tileId (T y : Nat) (hT1 : 1 ≤ T) (hT : T ≤ MAX_THREADS)
    (hy : y < WINDOW_HEIGHT) :
    getTileId (WINDOW_HEIGHT / T) y < MAX_THREADS ∧
    (T * (WINDOW_HEIGHT / T) ≤ y → getTileId (WINDOW_HEIGHT / T) y = T) ∧
    (∀ st : EngineState, st.threadCount = T →
      ∀ a ∈ spawnWorkers st, a.tileId < T) ∧
    (T * (WINDOW_HEIGHT / T) ≤ y → ∀ st : EngineState, st.threadCount = T →
      ∀ a ∈ spawnWorkers st, a.tileId ≠ getTileId (WINDOW_HEIGHT / T) y) := by
  have hcore := tileId_core T hT1 hT y hy
  have hworker : ∀ st : EngineState, st.threadCount = T →
      ∀ a ∈ spawnWorkers st, a.tileId < T := by
    intro st hst a ha
    simp only [spawnWorkers, List.mem_map, List.mem_range, hst] at ha
    obtain ⟨i, hi, rfl⟩ := ha
    exact hi
  have hgt : getTileId (WINDOW_HEIGHT / T) y = y / (600 / T) := rfl
  refine ⟨?_, ?_, hworker, ?_⟩
  · rw [hgt]; exact hcore.1
  · intro hrem
    rw [hgt]; exact hcore.2 hrem
  · intro hrem st hst a ha
    have ha' := hworker st hst a ha
    rw [hgt, hcore.2 hrem]
    omega

/-- C10, witness: T = 7, row 599 (a remainder row, since 7 * 85 = 595 ≤ 599):
its tile id is 7, a valid index below MAX_THREADS = 30. -/
theorem c10_witness :
    getTileId (WINDOW_HEIGHT / 7) 599 < MAX_THREADS ∧
    getTileId (WINDOW_HEIGHT / 7) 599 = 7 :=
  ⟨(c10_tileId 7 599 (by decide) (by decide) (by decide)).1,
   (c10_tileId 7 599 (by decide) (by decide) (by decide)).2.1 (by decide)⟩

end Mandelbrot
